import Mathlib

/-!
Verification development for the `sbusso/pocketbase` repository slice.

The repository material under verification is `apis/base.go` (route and
middleware wiring, the HTTP error handler, the static admin-UI handler,
the admin-count cache and the installer redirect middleware) together
with the specification of the rule-based access-control core (expression
evaluator, rule resolver, auth context propagator).  Components of the
repository that are referenced by `apis/base.go` but whose sources are
not part of the slice (the filter evaluation engine in `resolvers/`,
`LoadAuthContext` in `apis/middlewares.go`, `tools/rest`) are modelled
from the specification; each such definition carries a doc comment
saying so.  Go machine integers are modelled as `Int`/`Nat`; fallible Go
functions return `Except`/`Option`; the mutable `core.App` becomes an
explicit `AppState` passed and returned.
-/

namespace PocketBase

/-! ## Values and filter expressions (spec §3, §4.1) -/

/-- Modelled from the spec: a typed tagged value held by a record field
(§3 "Record", §9 "typed tagged-value union").  `vids` is the value of a
to-many relation field (a list of foreign record identifiers); a to-one
relation stores the single foreign id as `vtext`. -/
inductive Value where
  | vnull : Value
  | vbool (b : Bool) : Value
  | vnum (n : Int) : Value
  | vtext (s : String) : Value
  | vids (ids : List String) : Value
deriving DecidableEq, Repr

/-- Modelled from the spec: the eight comparison operators of §4.1
(`=`, `!=`, `>`, `>=`, `<`, `<=`, `~`, `!~`).  The any-of `?` variants
are a flag on the comparison node, not separate operators. -/
inductive CmpOp where
  | eq | neq | gt | gte | lt | lte | like | nlike
deriving DecidableEq, Repr

/-- Modelled from the spec: an operand of a comparison — a literal or a
dot-separated identifier path (§4.1). -/
inductive Operand where
  | lit (v : Value) : Operand
  | ident (path : List String) : Operand
deriving DecidableEq, Repr

/-- Modelled from the spec: the immutable filter AST of §3 — literal and
identifier operands inside `Comparison` nodes, `Logical` (`&&`/`||`)
nodes, `Group` nodes, and the distinguished `AlwaysTrue` AST produced
for the empty rule string (§4.1). -/
inductive FilterExpr where
  | alwaysTrue : FilterExpr
  | cmp (anyOf : Bool) (op : CmpOp) (lhs rhs : Operand) : FilterExpr
  | and (a b : FilterExpr) : FilterExpr
  | or (a b : FilterExpr) : FilterExpr
  | group (e : FilterExpr) : FilterExpr
deriving DecidableEq, Repr

/-! ## Records and identifier resolution (spec §3, §4.2) -/

/-- Modelled from the spec: a record is an id plus a mapping from field
name to value (§3 "Record"); the system fields are ordinary entries of
the mapping here. -/
structure Record where
  id : String
  fields : List (String × Value)
deriving DecidableEq, Repr

/-- Reads a field value from a record, `none` when the record has no
field of that name. -/
def Record.getField (r : Record) (name : String) : Option Value :=
  (r.fields.find? (fun kv => kv.1 = name)).map (fun kv => kv.2)

/-- Modelled from the spec: the `(record, relatedRecordLookup,
requestContext)` tuple the evaluator walks an AST against (§2 item 3).
`lookup` is the external record-store collaborator fetching a related
record by id (§6); `requestVals` resolves the `@request.*` pseudo-fields
(§4.2), keyed by the dot-joined remainder of the path. -/
structure EvalCtx where
  record : Record
  lookup : String → Option Record
  requestVals : List (String × Value)

/-- Foreign record ids held by a relation field value. -/
def relIds : Value → List String
  | Value.vtext s => [s]
  | Value.vids l => l
  | _ => []

/-- Fan-out of a terminal field value: a to-many relation value yields
its identifiers as individual values (so `tags ?= 'draft'` is an
any-match over the held ids, spec §8 Scenario C), anything else yields
itself. -/
def fanOut : Value → List Value
  | Value.vids l => l.map Value.vtext
  | v => [v]

/-- Modelled from the spec: resolution of a dot-path against a record
(§4.2) — the terminal segment reads a field value, every earlier segment
names a relation field whose targets are fetched through the lookup
collaborator, fanning out over to-many relations.  `none` means the
identifier is unresolvable (missing field); a fetch that finds no record
contributes no values (fail-closed). -/
def resolveRecordPath (lookup : String → Option Record) :
    List String → Record → Option (List Value)
  | [], _ => none
  | [f], r => (r.getField f).map fanOut
  | f :: g :: rest, r =>
    match r.getField f with
    | none => none
    | some v =>
      some ((((relIds v).filterMap lookup).map
        (fun r2 => (resolveRecordPath lookup (g :: rest) r2).getD [])).flatten)

/-- Modelled from the spec: resolution of a `@request.*` pseudo-field
path against the live request context (§4.2). -/
def resolveRequest (ctx : EvalCtx) (rest : List String) : Option (List Value) :=
  (ctx.requestVals.find? (fun kv => kv.1 = String.intercalate "." rest)).map
    (fun kv => [kv.2])

/-- Modelled from the spec: full identifier resolution (§4.2) — a
leading `@request` segment resolves against the request context, any
other leading segment starts a record dot-path. -/
def resolveIdent (ctx : EvalCtx) : List String → Option (List Value)
  | [] => none
  | p :: rest =>
    if p = "@request" then resolveRequest ctx rest
    else resolveRecordPath ctx.lookup (p :: rest) ctx.record

/-! ## Comparison semantics (spec §4.2) -/

/-- Boolean test that `sub` occurs as a contiguous initial run of `hay`. -/
def leadsWith : List Char → List Char → Bool
  | [], _ => true
  | _ :: _, [] => false
  | a :: as, b :: bs => a == b && leadsWith as bs

/-- Boolean test that `sub` occurs contiguously somewhere inside `hay`. -/
def listContains (hay sub : List Char) : Bool :=
  match hay with
  | [] => sub.isEmpty
  | _ :: t => leadsWith sub hay || listContains t sub

/-- Modelled from the spec: numeric coercion — a number or a numeric
string normalizes to a number (§4.2 "Type coercion"). -/
def valToNum : Value → Option Int
  | Value.vnum n => some n
  | Value.vtext s => s.toInt?
  | _ => none

/-- Modelled from the spec: textual view of a value for the `~`/`!~`
substring operators. -/
def valToText : Value → Option String
  | Value.vtext s => some s
  | Value.vnum n => some (toString n)
  | Value.vbool b => some (toString b)
  | _ => none

/-- Modelled from the spec: equality after coercion — operands that both
coerce to numbers compare numerically, otherwise structural equality;
incomparable pairs are a non-match (§4.2). -/
def valEq (a b : Value) : Bool :=
  match valToNum a, valToNum b with
  | some x, some y => x == y
  | _, _ => a == b

/-- Modelled from the spec: case-insensitive substring containment for
`~` (§4.2). -/
def valLike (a b : Value) : Bool :=
  match valToText a, valToText b with
  | some x, some y => listContains x.toLower.data y.toLower.data
  | _, _ => false

/-- Modelled from the spec: one comparison operator applied to two
already-resolved values — ordering operators require both operands to
coerce to numbers and are `false` otherwise (§4.2). -/
def cmpVal (op : CmpOp) (a b : Value) : Bool :=
  match op with
  | CmpOp.eq => valEq a b
  | CmpOp.neq => !valEq a b
  | CmpOp.like => valLike a b
  | CmpOp.nlike => !valLike a b
  | CmpOp.gt =>
    match valToNum a, valToNum b with
    | some x, some y => y < x
    | _, _ => false
  | CmpOp.gte =>
    match valToNum a, valToNum b with
    | some x, some y => y ≤ x
    | _, _ => false
  | CmpOp.lt =>
    match valToNum a, valToNum b with
    | some x, some y => x < y
    | _, _ => false
  | CmpOp.lte =>
    match valToNum a, valToNum b with
    | some x, some y => x ≤ y
    | _, _ => false

/-- Modelled from the spec: operand evaluation — a literal is a single
value, an identifier resolves to its fan-out list or fails (§4.2). -/
def evalOperand (ctx : EvalCtx) : Operand → Option (List Value)
  | Operand.lit v => some [v]
  | Operand.ident path => resolveIdent ctx path

/-- Modelled from the spec: a comparison node — any unresolvable operand
makes the sub-expression `false`; the default operators require every
resolved pair to match and are explicitly `false` on an empty fan-out;
the `?` variants require at least one matching pair (§4.2). -/
def evalCmp (ctx : EvalCtx) (anyOf : Bool) (op : CmpOp) (l r : Operand) : Bool :=
  match evalOperand ctx l, evalOperand ctx r with
  | some ls, some rs =>
    if anyOf then ls.any (fun a => rs.any (fun b => cmpVal op a b))
    else !ls.isEmpty && !rs.isEmpty && ls.all (fun a => rs.all (fun b => cmpVal op a b))
  | _, _ => false

/-- Modelled from the spec: the evaluator contract `evaluate(ast,
record, context) → bool` (§4.2) — a total function into `Bool`, logical
nodes with two-valued boolean semantics, `AlwaysTrue` evaluating to
`true`. -/
def evaluate : FilterExpr → EvalCtx → Bool
  | FilterExpr.alwaysTrue, _ => true
  | FilterExpr.cmp anyOf op l r, ctx => evalCmp ctx anyOf op l r
  | FilterExpr.and a b, ctx => evaluate a ctx && evaluate b ctx
  | FilterExpr.or a b, ctx => evaluate a ctx || evaluate b ctx
  | FilterExpr.group e, ctx => evaluate e ctx

/-! ## Rule resolver (spec §3, §4.3) -/

/-- Modelled from the spec: the tri-state of each per-operation rule
(§3 "Collection") — `absent` restricts the operation to admins, `empty`
always allows, otherwise a parsed filter expression. -/
inductive RuleState where
  | absent : RuleState
  | empty : RuleState
  | filter (e : FilterExpr) : RuleState
deriving DecidableEq, Repr

/-- Modelled from the spec: the slice of a `Collection` the rule
resolver consumes — its name and the five per-operation rules (§3). -/
structure Collection where
  name : String
  listRule : RuleState
  viewRule : RuleState
  createRule : RuleState
  updateRule : RuleState
  deleteRule : RuleState
deriving DecidableEq, Repr

/-- Modelled from the spec: the five gated operations (§4.3). -/
inductive Operation where
  | list | view | create | update | delete
deriving DecidableEq, Repr

/-- Selects the rule a collection defines for an operation. -/
def Collection.ruleFor (c : Collection) : Operation → RuleState
  | Operation.list => c.listRule
  | Operation.view => c.viewRule
  | Operation.create => c.createRule
  | Operation.update => c.updateRule
  | Operation.delete => c.deleteRule

/-- Modelled from the spec: the identity kind of a request-scoped
`AuthContext` (§3). -/
inductive AuthKind where
  | guest | user | admin
deriving DecidableEq, Repr

/-- Modelled from the spec: a resolved caller identity for one request
or connection — kind, for `user` the authenticating record and its
collection name, plus claim values from the credential (§3). -/
structure AuthContext where
  kind : AuthKind
  authRecord : Option Record
  authCollectionName : Option String
  claims : List (String × Value)
deriving DecidableEq, Repr

/-- Modelled from the spec: the access decision of the rule resolver
(§4.3). -/
inductive Decision where
  | allow | deny
deriving DecidableEq, Repr

/-- Record used in place of `nil` when an operation carries no record. -/
def emptyRecord : Record := { id := "", fields := [] }

/-- Modelled from the spec: the `@request.auth.*` entries of the request
context derived from the `AuthContext`, prepended to the other request
values (method, query and body parameters) (§4.2). -/
def requestValsOf (actx : AuthContext) (reqData : List (String × Value)) :
    List (String × Value) :=
  ("auth.id",
    match actx.authRecord with
    | some r => Value.vtext r.id
    | none => Value.vnull) ::
  ("auth.collectionName",
    match actx.authCollectionName with
    | some s => Value.vtext s
    | none => Value.vnull) ::
  reqData

/-- Modelled from the spec: the rule resolver contract
`canPerform(collection, operation, record|nil, context) → allow|deny`
with its ordered decision table (§4.3): admin always allows, an absent
rule denies, an empty rule allows without evaluating, and otherwise the
filter expression is evaluated against the record and context. -/
def canPerform (c : Collection) (op : Operation) (rec : Option Record)
    (actx : AuthContext) (lookup : String → Option Record)
    (reqData : List (String × Value)) : Decision :=
  if actx.kind = AuthKind.admin then Decision.allow
  else
    match c.ruleFor op with
    | RuleState.absent => Decision.deny
    | RuleState.empty => Decision.allow
    | RuleState.filter e =>
      if evaluate e
          { record := rec.getD emptyRecord, lookup := lookup,
            requestVals := requestValsOf actx reqData } then
        Decision.allow
      else Decision.deny

/-! ## Auth context propagator and the InitApi middleware chain
(spec §4.4; `apis/base.go` lines 23–31) -/

/-- Modelled from the spec: the classes of raw credential material the
propagator can receive (§4.4) — absent, invalid, expired, present but
malformed, or valid and resolving to a user record or to the admin
identity store. -/
inductive Credential where
  | absent : Credential
  | invalid : Credential
  | expired : Credential
  | malformed : Credential
  | validUser (userRecord : Record) (collectionName : String)
      (claims : List (String × Value)) : Credential
  | validAdmin (adminId : String) : Credential
deriving DecidableEq, Repr

/-- Modelled from the spec: the Auth Context Propagator — exactly one
`AuthContext` per credential; absent, invalid, expired or malformed
material degrades to `guest` rather than failing the request (§4.4). -/
def buildAuthContext : Credential → AuthContext
  | Credential.validUser r col claims =>
    { kind := AuthKind.user, authRecord := some r,
      authCollectionName := some col, claims := claims }
  | Credential.validAdmin _ =>
    { kind := AuthKind.admin, authRecord := none,
      authCollectionName := none, claims := [] }
  | _ =>
    { kind := AuthKind.guest, authRecord := none,
      authCollectionName := none, claims := [] }

/-- A minimal HTTP response shape: enough to distinguish the outcomes
the verified routines produce. -/
inductive Response where
  | okBody : Response
  | noContent (status : Int) : Response
  | apiJson (status : Int) (message : String) : Response
  | redirect (status : Int) (location : String) : Response
deriving DecidableEq, Repr

/-- The request-scoped context a middleware chain threads to the route
handler: the request path, the credential material carried by the
request, and the auth context once constructed. -/
structure HttpCtx where
  path : String
  cred : Credential
  auth : Option AuthContext
deriving DecidableEq, Repr

/-- Outcome of one middleware: pass an (updated) context to the next
element of the chain, or respond immediately without reaching it. -/
inductive MWOutcome where
  | proceed (c : HttpCtx) : MWOutcome
  | respond (r : Response) : MWOutcome
deriving DecidableEq, Repr

/-- One trailing slash removed, as `strings.TrimSuffix(path, "/")`. -/
def trimTrailingSlash (s : String) : String :=
  match s.data.reverse with
  | '/' :: rest => String.mk rest.reverse
  | _ => s

/-- Model of echo `middleware.RemoveTrailingSlash()` registered by
`e.Pre` in `InitApi` (`apis/base.go` line 28): rewrites the request path
and forwards. -/
def removeTrailingSlashMW (c : HttpCtx) : MWOutcome :=
  MWOutcome.proceed { c with path := trimTrailingSlash c.path }

/-- Model of echo `middleware.Recover()` (`apis/base.go` line 29):
forwards the context unchanged (its effect is only on panics, which the
embedding has no notion of). -/
def recoverMW (c : HttpCtx) : MWOutcome := MWOutcome.proceed c

/-- Model of echo `middleware.Secure()` (`apis/base.go` line 30): sets
response headers only, forwarding the context unchanged. -/
def secureMW (c : HttpCtx) : MWOutcome := MWOutcome.proceed c

/-- Modelled from the spec: `LoadAuthContext(app)` (`apis/middlewares.go`,
not under src/; registered at `apis/base.go` line 31) — builds the
request's `AuthContext` from its credential material per §4.4 and always
forwards to the next handler, never responding or failing itself. -/
def loadAuthContextMW (c : HttpCtx) : MWOutcome :=
  MWOutcome.proceed { c with auth := some (buildAuthContext c.cred) }

/-- The middleware chain `InitApi` installs ahead of every route handler
(`apis/base.go` lines 28–31), in registration order: the `Pre` chain
(RemoveTrailingSlash) followed by the `Use` chain (Recover, Secure,
LoadAuthContext). -/
def initApiMiddlewares : List (HttpCtx → MWOutcome) :=
  [removeTrailingSlashMW, recoverMW, secureMW, loadAuthContextMW]

/-- Runs a middleware chain over a context; `some c` is the context the
route handler observes, `none` means a middleware responded before any
route handler could execute. -/
def runMiddlewares : List (HttpCtx → MWOutcome) → HttpCtx → Option HttpCtx
  | [], c => some c
  | m :: ms, c =>
    match m c with
    | MWOutcome.proceed c2 => runMiddlewares ms c2
    | MWOutcome.respond _ => none

/-! ## The custom HTTP error handler (`apis/base.go` lines 34–73) -/

/-- The payload shape of `rest.ApiError`: the HTTP status code it is
sent with and its public message. -/
structure ApiError where
  code : Int
  message : String
deriving DecidableEq, Repr

/-- Modelled from the spec: `rest.NewApiError(code, msg, data)`
(`tools/rest`, not under src/) — wraps a status code and message into an
`ApiError` sent with that status. -/
def newApiError (code : Int) (message : String) : ApiError :=
  { code := code, message := message }

/-- Modelled from the spec: `rest.NewBadRequestError(msg, data)`
(`tools/rest`, not under src/) — by the standard HTTP meaning its name
fixes, it builds an `ApiError` with status 400 (`http.StatusBadRequest`)
and, for an empty message argument, the generic default message. -/
def newBadRequestError (message : String) : ApiError :=
  { code := 400,
    message :=
      if message = "" then "Something went wrong while processing your request."
      else message }

/-- The classes of `error` values the handler at `apis/base.go` lines
41–58 switches over: an `*echo.HTTPError`, an already-built
`*rest.ApiError`, or any other error value (the `default` branch). -/
inductive GoError where
  | httpError (code : Int) (message : String) : GoError
  | apiError (e : ApiError) : GoError
  | generic (message : String) : GoError
deriving DecidableEq, Repr

/-- The `switch` of the custom error handler (`apis/base.go` lines
41–58): an `*echo.HTTPError` is wrapped via `rest.NewApiError` with its
own code and message, a `*rest.ApiError` passes through, and every other
error becomes `rest.NewBadRequestError("", err)`. -/
def errorHandlerApiError : GoError → ApiError
  | GoError.httpError code msg => newApiError code msg
  | GoError.apiError e => e
  | GoError.generic _ => newBadRequestError ""

/-- The response step of the error handler (`apis/base.go` lines 60–67):
nothing when the response is already committed; otherwise `NoContent`
with the ApiError's code for HEAD requests and the JSON-serialized
ApiError with its code for every other method. -/
def errorHandlerResponse (committed : Bool) (isHead : Bool)
    (e : GoError) : Option Response :=
  if committed then none
  else
    some
      (if isHead then Response.noContent (errorHandlerApiError e).code
       else Response.apiJson (errorHandlerApiError e).code
              (errorHandlerApiError e).message)

/-- HTTP server-error status class: `5xx`. -/
def isServerErrorCode (c : Int) : Bool :=
  decide (500 ≤ c) && decide (c < 600)

/-! ## Admin-count cache, hooks and installer redirect
(`apis/base.go` lines 152–202) -/

/-- The slice of the mutable `core.App` the verified routines touch:
the store's current number of admins, a flag standing for a transient
failure of the `TotalAdmins` query, and the `app.Cache()` entries
(an association list read through its most recent entry for a key). -/
structure AppState where
  adminCount : Nat
  daoFails : Bool
  cache : List (String × Int)
deriving DecidableEq, Repr

/-- The cache key constant of `apis/base.go` line 152. -/
def totalAdminsCacheKey : String := "totalAdmins"

/-- Model of `app.Cache().Set(k, v)`: the new entry shadows any earlier
entry for the key. -/
def cacheSet (cache : List (String × Int)) (k : String) (v : Int) :
    List (String × Int) :=
  (k, v) :: cache

/-- Model of `app.Cache().Get(k)`. -/
def cacheGet (cache : List (String × Int)) (k : String) : Option Int :=
  (cache.find? (fun kv => kv.1 = k)).map (fun kv => kv.2)

/-- Model of `app.Cache().Has(k)`. -/
def cacheHas (cache : List (String × Int)) (k : String) : Bool :=
  (cache.find? (fun kv => kv.1 = k)).isSome

/-- Model of `cast.ToInt` applied to a fetched cache value: the stored
integer, and 0 for a missing (`nil`) value. -/
def castToInt (v : Option Int) : Int := v.getD 0

/-- Model of `app.Dao().TotalAdmins()`: the store's current total admin
count, or a transient query failure. -/
def TotalAdmins (s : AppState) : Except Unit Nat :=
  if s.daoFails then Except.error () else Except.ok s.adminCount

/-- The function at `apis/base.go` lines 154–163: queries
`TotalAdmins`, returns the error at once when the query fails (touching
nothing), and otherwise writes the queried value under the
`totalAdmins` cache key. -/
def updateTotalAdminsCache (s : AppState) : Except Unit Unit × AppState :=
  match TotalAdmins s with
  | Except.error e => (Except.error e, s)
  | Except.ok total =>
    (Except.ok (),
     { s with cache := cacheSet s.cache totalAdminsCacheKey (Int.ofNat total) })

/-- A hook handler on the app's event bus: a state transformer that may
fail, as the Go `func(e *Event) error` handlers over the mutable app. -/
def HookHandler : Type := AppState → Except Unit Unit × AppState

/-- The handlers `installerRedirect` adds to
`app.OnAdminAfterCreateRequest()` at startup (`apis/base.go` lines
169–171). -/
def onAdminAfterCreateRequestHooks : List HookHandler :=
  [fun s => updateTotalAdminsCache s]

/-- The handlers `installerRedirect` adds to
`app.OnAdminAfterDeleteRequest()` at startup (`apis/base.go` lines
172–174). -/
def onAdminAfterDeleteRequestHooks : List HookHandler :=
  [fun s => updateTotalAdminsCache s]

/-- Model of `hook.Hook.Trigger`: the registered handlers run
synchronously in order, stopping at the first error. -/
def fireHooks : List HookHandler → AppState → Except Unit Unit × AppState
  | [], s => (Except.ok (), s)
  | h :: hs, s =>
    match h s with
    | (Except.ok _, s2) => fireHooks hs s2
    | (Except.error e, s2) => (Except.error e, s2)

/-- A successful admin create request: the store gains one admin and the
`OnAdminAfterCreateRequest` hooks fire synchronously on that mutation. -/
def adminCreateRequest (s : AppState) : Except Unit Unit × AppState :=
  fireHooks onAdminAfterCreateRequestHooks
    { s with adminCount := s.adminCount + 1 }

/-- A successful admin delete request: the store loses one admin and the
`OnAdminAfterDeleteRequest` hooks fire synchronously on that mutation. -/
def adminDeleteRequest (s : AppState) : Except Unit Unit × AppState :=
  fireHooks onAdminAfterDeleteRequestHooks
    { s with adminCount := s.adminCount - 1 }

/-- Outcome of the installer-redirect middleware for one request: an
error returned to the framework, or a response (either a redirect it
produced itself or whatever the wrapped next handler produced). -/
inductive MWResult where
  | failed : MWResult
  | resp (r : Response) : MWResult
deriving DecidableEq, Repr

/-- The branch structure of the returned handler at `apis/base.go`
lines 185–199, after the cache is known to be loaded: read the cached
total through `cast.ToInt`, redirect to the installer page when it is 0
and the URL query has no `installer` key, redirect to the home page when
it is nonzero and the query has the key, and otherwise fall through to
the wrapped handler. -/
def installerRedirectCheck (s : AppState) (hasInstaller : Bool)
    (next : AppState → Response) : AppState × MWResult :=
  let totalAdmins : Int := castToInt (cacheGet s.cache totalAdminsCacheKey)
  if totalAdmins == 0 && !hasInstaller then
    (s, MWResult.resp (Response.redirect 307 "/_/?installer#"))
  else if totalAdmins != 0 && hasInstaller then
    (s, MWResult.resp (Response.redirect 307 "/_/#/"))
  else (s, MWResult.resp (next s))

/-- The full handler the middleware at `apis/base.go` lines 176–201
wraps around `next`: first fill the cache if it has no `totalAdmins`
entry (propagating a query failure as the request's error), then apply
the branch structure of `installerRedirectCheck`. -/
def installerRedirectRun (s : AppState) (hasInstaller : Bool)
    (next : AppState → Response) : AppState × MWResult :=
  if cacheHas s.cache totalAdminsCacheKey then
    installerRedirectCheck s hasInstaller next
  else
    match updateTotalAdminsCache s with
    | (Except.ok _, s2) => installerRedirectCheck s2 hasInstaller next
    | (Except.error _, s2) => (s2, MWResult.failed)

/-! ## Static directory handler path handling
(`apis/base.go` lines 111–127, with the Go standard library functions it
calls modelled at the level of character lists) -/

/-- Split of a character list at `'/'` into its slash-separated
segments, as both `io/fs.ValidPath` and `path.Clean` read a path; the
result is always nonempty, and double slashes yield empty segments. -/
def splitSegs : List Char → List (List Char)
  | [] => [[]]
  | c :: cs =>
    if c = '/' then [] :: splitSegs cs
    else
      match splitSegs cs with
      | [] => [[c]]
      | s :: ss => (c :: s) :: ss

/-- One step of the `filepath.Clean` element scan: empty and `.`
segments are dropped, `..` pops the last kept segment unless the stack
is empty (where it is dropped for a rooted path and kept for a relative
one) or already ends in `..`, and every other segment is kept. -/
def cleanStep (rooted : Bool) (stack : List (List Char)) (seg : List Char) :
    List (List Char) :=
  if seg = [] ∨ seg = ['.'] then stack
  else if seg = ['.', '.'] then
    match stack with
    | [] => if rooted then [] else [['.', '.']]
    | top :: rest => if top = ['.', '.'] then seg :: stack else rest
  else seg :: stack

/-- Joins segments back with single slashes. -/
def joinSegs : List (List Char) → List Char
  | [] => []
  | [s] => s
  | s :: t :: rest => s ++ '/' :: joinSegs (t :: rest)

/-- Model of `filepath.Clean` for a slash-separated path (on a Unix
target `filepath.Separator` is `'/'` and `filepath.ToSlash` is the
identity, so this is also `ToSlash ∘ Clean`): purely lexical removal of
multiple slashes, `.` elements and `..` elements together with the
non-`..` element preceding them, `..` kept at the start of a relative
path and dropped at the root of a rooted one; the empty result is `"."`
for a relative path and `"/"` for a rooted one. -/
def goFilepathClean (p : List Char) : List Char :=
  let rooted := p.head? = some '/'
  let stack := (splitSegs p).foldl (cleanStep rooted) []
  let body := joinSegs stack.reverse
  if rooted then '/' :: body
  else if body = [] then ['.'] else body

/-- Model of `strings.TrimPrefix(p, "/")`: one leading slash removed
when present. -/
def goTrimPrefixSlash : List Char → List Char
  | '/' :: cs => cs
  | l => l

/-- The file name the handler at `apis/base.go` line 123 passes to
`c.FileFS`: `filepath.ToSlash(filepath.Clean(strings.TrimPrefix(p, "/")))`
applied to the (already unescaped) `*` path parameter. -/
def staticHandlerFileName (p : List Char) : List Char :=
  goFilepathClean (goTrimPrefixSlash p)

/-- Validity of one path element under `io/fs.ValidPath`: nonempty and
neither `.` nor `..`. -/
def validSeg (s : List Char) : Bool :=
  !s.isEmpty && s != ['.'] && s != ['.', '.']

/-- Model of `io/fs.ValidPath`, the validity check `fs.FS.Open` — and
hence `c.FileFS` — enforces before touching the file system: the name
`"."` is valid, and otherwise every slash-separated element must be
nonempty and neither `.` nor `..`; names failing it are rejected with an
error instead of being opened. -/
def fsValidPath (name : List Char) : Bool :=
  if name = ['.'] then true else (splitSegs name).all validSeg

/-! ## Theorems -/

/-- Claim C2: for every collection, every operation in {list, view,
create, update, delete}, every record (or nil record), and every context
whose kind is admin, `canPerform` returns allow, regardless of which
rules the collection defines. -/
theorem canPerform_admin_always_allow (c : Collection) (op : Operation)
    (rec : Option Record) (actx : AuthContext)
    (lookup : String → Option Record) (reqData : List (String × Value))
    (h : actx.kind = AuthKind.admin) :
    canPerform c op rec actx lookup reqData = Decision.allow := by
  simp [canPerform, h]

/-- Witness for C2: a concrete admin context against a collection whose
every rule is absent, on a delete with no record. -/
theorem canPerform_admin_always_allow_witness :
    (buildAuthContext (Credential.validAdmin "a1")).kind = AuthKind.admin ∧
    canPerform
      { name := "posts", listRule := RuleState.absent,
        viewRule := RuleState.absent, createRule := RuleState.absent,
        updateRule := RuleState.absent, deleteRule := RuleState.absent }
      Operation.delete none (buildAuthContext (Credential.validAdmin "a1"))
      (fun _ => none) [] = Decision.allow :=
  ⟨rfl, canPerform_admin_always_allow _ _ _ _ _ _ rfl⟩

/-- Claim C3: for all filter ASTs `a` and `b` and all valid (record,
context) inputs, evaluating the logical AND node over `a` and `b` equals
the boolean conjunction of their evaluations, and evaluating the logical
OR node equals the boolean disjunction. -/
theorem evaluate_logical_and_or (a b : FilterExpr) (ctx : EvalCtx) :
    evaluate (FilterExpr.and a b) ctx = (evaluate a ctx && evaluate b ctx) ∧
    evaluate (FilterExpr.or a b) ctx = (evaluate a ctx || evaluate b ctx) ∧
    (evaluate (FilterExpr.and a b) ctx = true ↔
      (evaluate a ctx = true ∧ evaluate b ctx = true)) ∧
    (evaluate (FilterExpr.or a b) ctx = true ↔
      (evaluate a ctx = true ∨ evaluate b ctx = true)) := by
  refine ⟨rfl, rfl, ?_, ?_⟩ <;> simp [evaluate]

/-- Claim C6: for every AST, record and context, `evaluate` returns a
boolean (totality is by construction, stated as two-valuedness) and a
comparison one of whose identifier operands is semantically absent
evaluates to `false` instead of aborting evaluation.  Semantic absence
takes two shapes in the embedding: a missing identifier (a leading
segment naming no field, or an unknown `@request` entry) resolves to
`none`, while a null relation target, a relation id whose lookup finds
no record, and a dot-path unresolvable past its first segment resolve to
the empty fan-out `some []`; in either shape, on either side of the
comparison, and for both the default and the `?` operators, the
comparison node evaluates to `false`. -/
theorem evaluate_total_fail_closed (ctx : EvalCtx) (e : FilterExpr) :
    (evaluate e ctx = true ∨ evaluate e ctx = false) ∧
    (∀ anyOf op path other,
      (resolveIdent ctx path = none ∨ resolveIdent ctx path = some []) →
      evaluate (FilterExpr.cmp anyOf op (Operand.ident path) other) ctx
        = false ∧
      evaluate (FilterExpr.cmp anyOf op other (Operand.ident path)) ctx
        = false) := by
  constructor
  · cases hv : evaluate e ctx
    · exact Or.inr rfl
    · exact Or.inl rfl
  · intro anyOf op path other h
    have hL : evalOperand ctx (Operand.ident path) = resolveIdent ctx path :=
      rfl
    constructor
    · show evalCmp ctx anyOf op (Operand.ident path) other = false
      unfold evalCmp
      rw [hL]
      cases hE : evalOperand ctx other <;>
        rcases h with h | h <;> rw [h] <;> cases anyOf <;> simp
    · show evalCmp ctx anyOf op other (Operand.ident path) = false
      unfold evalCmp
      rw [hL]
      cases hE : evalOperand ctx other <;>
        rcases h with h | h <;> rw [h] <;> cases anyOf <;> simp

/-- Witness for C6, exercising both shapes of semantic absence: on a
record with no fields the identifier `missing` resolves to `none` and
its comparison evaluates to false; on a record whose relation field
`rel` holds null, the dot-path `rel.id` resolves to the empty fan-out
`some []` and its (`?`-variant) comparison also evaluates to false. -/
theorem evaluate_total_fail_closed_witness :
    resolveIdent ⟨⟨"r1", []⟩, fun _ => none, []⟩ ["missing"] = none ∧
    evaluate
      (FilterExpr.cmp false CmpOp.eq (Operand.ident ["missing"])
        (Operand.lit Value.vnull))
      ⟨⟨"r1", []⟩, fun _ => none, []⟩ = false ∧
    resolveIdent ⟨⟨"r2", [("rel", Value.vnull)]⟩, fun _ => none, []⟩
      ["rel", "id"] = some [] ∧
    evaluate
      (FilterExpr.cmp true CmpOp.eq (Operand.ident ["rel", "id"])
        (Operand.lit Value.vnull))
      ⟨⟨"r2", [("rel", Value.vnull)]⟩, fun _ => none, []⟩ = false :=
  ⟨by decide,
   ((evaluate_total_fail_closed ⟨⟨"r1", []⟩, fun _ => none, []⟩
       FilterExpr.alwaysTrue).2 false CmpOp.eq ["missing"]
       (Operand.lit Value.vnull) (Or.inl (by decide))).1,
   by decide,
   ((evaluate_total_fail_closed ⟨⟨"r2", [("rel", Value.vnull)]⟩,
       fun _ => none, []⟩
       FilterExpr.alwaysTrue).2 true CmpOp.eq ["rel", "id"]
       (Operand.lit Value.vnull) (Or.inr (by decide))).1⟩

/-- Claim C7: for every incoming credential that is absent, invalid,
expired, or malformed-but-present, the Auth Context Propagator produces
exactly one AuthContext of kind guest, and the LoadAuthContext
middleware forwards the request with that context rather than failing
it, leaving access to normal rule evaluation. -/
theorem auth_propagator_degrades_to_guest (cred : Credential)
    (h : cred = Credential.absent ∨ cred = Credential.invalid ∨
         cred = Credential.expired ∨ cred = Credential.malformed) :
    buildAuthContext cred =
      { kind := AuthKind.guest, authRecord := none,
        authCollectionName := none, claims := [] } ∧
    ∀ c : HttpCtx, c.cred = cred →
      loadAuthContextMW c =
        MWOutcome.proceed { c with auth := some (buildAuthContext cred) } := by
  rcases h with h | h | h | h <;> subst h <;>
    exact ⟨rfl, fun c hc => by simp [loadAuthContextMW, hc]⟩

/-- Witness for C7: a malformed credential yields the guest context. -/
theorem auth_propagator_degrades_to_guest_witness :
    (Credential.malformed = Credential.absent ∨
     Credential.malformed = Credential.invalid ∨
     Credential.malformed = Credential.expired ∨
     Credential.malformed = Credential.malformed) ∧
    buildAuthContext Credential.malformed =
      { kind := AuthKind.guest, authRecord := none,
        authCollectionName := none, claims := [] } :=
  ⟨Or.inr (Or.inr (Or.inr rfl)),
   (auth_propagator_degrades_to_guest Credential.malformed
     (Or.inr (Or.inr (Or.inr rfl)))).1⟩

/-- Claim C4: for every request served by the echo instance built by
`InitApi`, whenever the middleware chain hands a context to a route
handler (rather than responding first), the auth-context-loading
middleware has already run on it, so every handler observes an
already-constructed AuthContext — namely the one built from the
request's credential. -/
theorem initApi_handler_observes_auth_context (c0 c : HttpCtx)
    (h : runMiddlewares initApiMiddlewares c0 = some c) :
    c.auth = some (buildAuthContext c0.cred) := by
  have h2 : runMiddlewares initApiMiddlewares c0 =
      some { path := trimTrailingSlash c0.path, cred := c0.cred,
             auth := some (buildAuthContext c0.cred) } := rfl
  rw [h2] at h
  injection h with h3
  rw [← h3]

/-- Witness for C4: a concrete guest request reaching the route handler
with the guest AuthContext already attached. -/
theorem initApi_handler_observes_auth_context_witness :
    runMiddlewares initApiMiddlewares
      { path := "/api/x", cred := Credential.absent, auth := none } =
      some { path := "/api/x", cred := Credential.absent,
             auth := some (buildAuthContext Credential.absent) } ∧
    (HttpCtx.mk "/api/x" Credential.absent
      (some (buildAuthContext Credential.absent))).auth
      = some (buildAuthContext Credential.absent) :=
  ⟨rfl,
   initApi_handler_observes_auth_context
     { path := "/api/x", cred := Credential.absent, auth := none }
     { path := "/api/x", cred := Credential.absent,
       auth := some (buildAuthContext Credential.absent) } rfl⟩

/-- Claim C1 counterexample: an error reaching the HTTP error handler
that is neither an echo.HTTPError nor a rest.ApiError — e.g. a transient
storage failure propagated as a resolver-level failure — is wrapped by
the default branch into status 400, which is not a server-error (5xx)
status, so the claim "fails with a server error response" is false at
this input. -/
theorem errorHandler_generic_unknown_error_counterexample :
    (errorHandlerApiError (GoError.generic "transient storage failure")).code
      = 400 ∧
    isServerErrorCode
      (errorHandlerApiError
        (GoError.generic "transient storage failure")).code = false := by
  exact ⟨rfl, rfl⟩

/-- Claim C1 amended: for every error reaching the HTTP error handler
that is neither an echo.HTTPError nor a rest.ApiError, the REST request
fails with an error response of status 400 Bad Request (a client-error
status, not a 5xx server error) carrying the generic default message —
sent as JSON, or as an empty body with the same status for HEAD —
whenever the response is not already committed. -/
theorem errorHandler_generic_unknown_error_bad_request (msg : String)
    (isHead : Bool) :
    errorHandlerApiError (GoError.generic msg) =
      { code := 400,
        message := "Something went wrong while processing your request." } ∧
    errorHandlerResponse false isHead (GoError.generic msg) =
      some (if isHead then Response.noContent 400
            else Response.apiJson 400
              "Something went wrong while processing your request.") := by
  refine ⟨rfl, ?_⟩
  cases isHead <;> rfl

/-- Reading the key just written by `cacheSet` yields the written
value. -/
theorem cacheGet_cacheSet (cache : List (String × Int)) (k : String)
    (v : Int) : cacheGet (cacheSet cache k v) k = some v := by
  unfold cacheGet cacheSet
  rw [List.find?_cons_of_pos _ (by simp)]
  rfl

/-- Claim C9: `updateTotalAdminsCache` is atomic on error — when the
TotalAdmins query fails it returns that error with the application
state, cache included, left unchanged; the totalAdmins cache key is
written only when the query succeeds, and then with the queried
value. -/
theorem updateTotalAdminsCache_atomic_on_error (s : AppState) :
    (∀ e, TotalAdmins s = Except.error e →
      updateTotalAdminsCache s = (Except.error e, s)) ∧
    (∀ t, TotalAdmins s = Except.ok t →
      updateTotalAdminsCache s =
        (Except.ok (),
         { s with
            cache := cacheSet s.cache totalAdminsCacheKey (Int.ofNat t) }) ∧
      cacheGet (updateTotalAdminsCache s).2.cache totalAdminsCacheKey
        = some (Int.ofNat t)) := by
  constructor
  · intro e h
    simp [updateTotalAdminsCache, h]
  · intro t h
    have h2 : updateTotalAdminsCache s =
        (Except.ok (),
         { s with
            cache := cacheSet s.cache totalAdminsCacheKey (Int.ofNat t) }) := by
      simp [updateTotalAdminsCache, h]
    refine ⟨h2, ?_⟩
    rw [h2]
    exact cacheGet_cacheSet s.cache totalAdminsCacheKey (Int.ofNat t)

/-- Witness for C9: a failing query leaves a concrete state untouched;
a succeeding query on another concrete state writes the queried count. -/
theorem updateTotalAdminsCache_atomic_on_error_witness :
    TotalAdmins { adminCount := 2, daoFails := true, cache := [("x", 9)] }
      = Except.error () ∧
    updateTotalAdminsCache
        { adminCount := 2, daoFails := true, cache := [("x", 9)] } =
      (Except.error (),
       { adminCount := 2, daoFails := true, cache := [("x", 9)] }) ∧
    TotalAdmins { adminCount := 2, daoFails := false, cache := [] }
      = Except.ok 2 ∧
    cacheGet
      (updateTotalAdminsCache
        { adminCount := 2, daoFails := false, cache := [] }).2.cache
      totalAdminsCacheKey = some 2 :=
  ⟨rfl,
   (updateTotalAdminsCache_atomic_on_error
     { adminCount := 2, daoFails := true, cache := [("x", 9)] }).1 () rfl,
   rfl,
   ((updateTotalAdminsCache_atomic_on_error
     { adminCount := 2, daoFails := false, cache := [] }).2 2 rfl).2⟩

/-- Claim C5: the admin-count cache is maintained by the two hook
handlers `installerRedirect` registers once at startup on the app's
event bus — each exactly the `updateTotalAdminsCache` refresh — fired
synchronously on the triggering mutation (the model has no background
timer): after every successful admin create request and every successful
admin delete request, the totalAdmins cache entry equals the store's
current total admin count. -/
theorem admin_mutation_hooks_refresh_cache (s s2 : AppState) :
    onAdminAfterCreateRequestHooks = [fun st => updateTotalAdminsCache st] ∧
    onAdminAfterDeleteRequestHooks = [fun st => updateTotalAdminsCache st] ∧
    (adminCreateRequest s = (Except.ok (), s2) →
      cacheGet s2.cache totalAdminsCacheKey
        = some (Int.ofNat s2.adminCount)) ∧
    (adminDeleteRequest s = (Except.ok (), s2) →
      cacheGet s2.cache totalAdminsCacheKey
        = some (Int.ofNat s2.adminCount)) := by
  refine ⟨rfl, rfl, ?_, ?_⟩ <;> intro h <;> by_cases hf : s.daoFails
  · simp [adminCreateRequest, onAdminAfterCreateRequestHooks, fireHooks,
      updateTotalAdminsCache, TotalAdmins, hf] at h
  · simp [adminCreateRequest, onAdminAfterCreateRequestHooks, fireHooks,
      updateTotalAdminsCache, TotalAdmins, hf] at h
    rw [← h]
    exact cacheGet_cacheSet _ _ _
  · simp [adminDeleteRequest, onAdminAfterDeleteRequestHooks, fireHooks,
      updateTotalAdminsCache, TotalAdmins, hf] at h
  · simp [adminDeleteRequest, onAdminAfterDeleteRequestHooks, fireHooks,
      updateTotalAdminsCache, TotalAdmins, hf] at h
    rw [← h]
    exact cacheGet_cacheSet _ _ _

/-- Witness for C5: a concrete successful admin create request after
which the cache entry equals the store's new count. -/
theorem admin_mutation_hooks_refresh_cache_witness :
    adminCreateRequest { adminCount := 4, daoFails := false, cache := [] } =
      (Except.ok (),
       { adminCount := 5, daoFails := false,
         cache := [("totalAdmins", 5)] }) ∧
    cacheGet [("totalAdmins", (5 : Int))] totalAdminsCacheKey = some 5 :=
  ⟨rfl,
   (admin_mutation_hooks_refresh_cache
     { adminCount := 4, daoFails := false, cache := [] }
     { adminCount := 5, daoFails := false,
       cache := [("totalAdmins", 5)] }).2.2.1 rfl⟩

/-- Claim C10: for every request through the installerRedirect
middleware with the cache populated — a cached total of 0 with no
`installer` query key yields a 307 redirect to `/_/?installer#`, a
nonzero total with the key yields a 307 redirect to `/_/#/`, and in
every other case the request proceeds to the wrapped handler
unchanged. -/
theorem installerRedirect_branches (s : AppState) (hasInstaller : Bool)
    (next : AppState → Response)
    (hHas : cacheHas s.cache totalAdminsCacheKey = true) :
    (castToInt (cacheGet s.cache totalAdminsCacheKey) = 0 →
     hasInstaller = false →
      installerRedirectRun s hasInstaller next =
        (s, MWResult.resp (Response.redirect 307 "/_/?installer#"))) ∧
    (castToInt (cacheGet s.cache totalAdminsCacheKey) ≠ 0 →
     hasInstaller = true →
      installerRedirectRun s hasInstaller next =
        (s, MWResult.resp (Response.redirect 307 "/_/#/"))) ∧
    ((castToInt (cacheGet s.cache totalAdminsCacheKey) = 0 ∧
        hasInstaller = true) ∨
     (castToInt (cacheGet s.cache totalAdminsCacheKey) ≠ 0 ∧
        hasInstaller = false) →
      installerRedirectRun s hasInstaller next
        = (s, MWResult.resp (next s))) := by
  refine ⟨?_, ?_, ?_⟩
  · intro h0 hI
    simp [installerRedirectRun, hHas, installerRedirectCheck, h0, hI]
  · intro h0 hI
    simp [installerRedirectRun, hHas, installerRedirectCheck, h0, hI]
  · rintro (⟨h0, hI⟩ | ⟨h0, hI⟩) <;>
      simp [installerRedirectRun, hHas, installerRedirectCheck, h0, hI]

/-- Witness for C10: a populated cache holding 0 admins and no installer
query key redirects to the installer page. -/
theorem installerRedirect_branches_witness :
    cacheHas [("totalAdmins", (0 : Int))] totalAdminsCacheKey = true ∧
    castToInt (cacheGet [("totalAdmins", (0 : Int))] totalAdminsCacheKey)
      = 0 ∧
    installerRedirectRun
      { adminCount := 0, daoFails := false,
        cache := [("totalAdmins", 0)] } false (fun _ => Response.okBody) =
      ({ adminCount := 0, daoFails := false,
         cache := [("totalAdmins", 0)] },
       MWResult.resp (Response.redirect 307 "/_/?installer#")) :=
  ⟨rfl, rfl,
   (installerRedirect_branches
     { adminCount := 0, daoFails := false, cache := [("totalAdmins", 0)] }
     false (fun _ => Response.okBody) rfl).1 rfl rfl⟩

/-- A name accepted by `fsValidPath` neither begins with a slash nor has
any `..` among its slash-separated segments. -/
theorem fsValidPath_no_escape (name : List Char)
    (h : fsValidPath name = true) :
    name.head? ≠ some '/' ∧ ['.', '.'] ∉ splitSegs name := by
  by_cases hd : name = ['.']
  · subst hd
    exact ⟨by decide, by decide⟩
  · rw [fsValidPath, if_neg hd, List.all_eq_true] at h
    constructor
    · intro hh
      cases name with
      | nil => simp at hh
      | cons c cs =>
        simp at hh
        subst hh
        have hmem : ([] : List Char) ∈ splitSegs ('/' :: cs) := by
          simp [splitSegs]
        have hv := h _ hmem
        simp [validSeg] at hv
    · intro hmem
      have hv := h _ hmem
      simp [validSeg] at hv

/-- Claim C8 counterexample: for the path parameter `//x` the file name
computed at `apis/base.go` line 123 is `/x`, which begins with a slash —
refuting "which never begins with a slash".  (The name is nonetheless
rejected by the fs.FS validity rules, so nothing outside the root is
served at this input either.) -/
theorem static_handler_leading_slash_counterexample :
    staticHandlerFileName ('/' :: '/' :: 'x' :: []) = '/' :: 'x' :: [] ∧
    (staticHandlerFileName ('/' :: '/' :: 'x' :: [])).head? = some '/' ∧
    fsValidPath (staticHandlerFileName ('/' :: '/' :: 'x' :: []))
      = false := by
  exact ⟨by decide, by decide, by decide⟩

/-- Claim C8 amended: the file name passed to the filesystem is exactly
`filepath.ToSlash(filepath.Clean(strings.TrimPrefix(p, "/")))`; it can
begin with a slash (namely when the path parameter begins with two
slashes), but every name that begins with a slash or retains a `..`
segment fails the fs.FS validity rules that FileFS enforces, so whenever
the name is accepted it neither begins with a slash nor contains any
`..` segment — no file outside the given file system root is ever
served. -/
theorem static_handler_no_root_escape (p : List Char)
    (h : fsValidPath (staticHandlerFileName p) = true) :
    (staticHandlerFileName p).head? ≠ some '/' ∧
    ['.', '.'] ∉ splitSegs (staticHandlerFileName p) :=
  fsValidPath_no_escape (staticHandlerFileName p) h

/-- Witness for C8 (amended): the ordinary path parameter `x` cleans to
the accepted name `x`, which does not begin with a slash. -/
theorem static_handler_no_root_escape_witness :
    fsValidPath (staticHandlerFileName ('x' :: [])) = true ∧
    (staticHandlerFileName ('x' :: [])).head? ≠ some '/' :=
  ⟨by decide, (static_handler_no_root_escape ('x' :: []) (by decide)).1⟩

end PocketBase
